import Mathlib

/-!
# Verification of the sigparser ingestion pipeline

A shallow embedding of the sigparser source (TypeScript, Cloudflare Workers)
into Lean 4, together with theorems settling the frozen claims about the
natural-language specification.

Modelling conventions:
* JavaScript strings are modelled as `List Char`.
* The D1 relational store is modelled as association lists keyed by the
  SQL primary keys; `INSERT` appends, `UPDATE ... WHERE key = ?` rewrites the
  matching entries in place.
* Random `generateId()` values are modelled by a fresh-id counter threaded
  through the store; `now()` timestamps (`created_at` / `updated_at`
  bookkeeping) are irrelevant to every claim and are omitted from the rows.
* JavaScript case-insensitive regexes are modelled by matching the lowercase
  pattern against the lowercased input.

Where a definition embeds a specific source function, its doc comment names
the file and function.
-/

namespace Sigparser

/-! ## String primitives (List Char models of the JS string operations) -/

/-- JS whitespace test, modelling `\s` and `String.prototype.trim`. -/
def isWs (c : Char) : Bool := c.isWhitespace

/-- Model of `String.prototype.trim`: drop whitespace from both ends. -/
def trimL (s : List Char) : List Char :=
  ((s.dropWhile isWs).reverse.dropWhile isWs).reverse

/-- Model of `String.prototype.toLowerCase` (character-wise). -/
def toLowerL (s : List Char) : List Char := s.map Char.toLower

/-- Split at the first occurrence of `c`: `some (before, after)` with
`s = before ++ c :: after` and `c ∉ before`; `none` when `c` is absent.
This models `s.indexOf(c)` together with the `substring` calls around it. -/
def splitAtFirst (c : Char) : List Char → Option (List Char × List Char)
  | [] => none
  | x :: xs =>
    if x = c then some ([], xs)
    else (splitAtFirst c xs).map (fun p => (x :: p.1, p.2))

/-- Split at the last occurrence of `c`: `some (before, after)` with
`s = before ++ c :: after` and `c ∉ after`; `none` when `c` is absent.
This models `s.lastIndexOf(c)` together with the `substring` calls around it. -/
def splitAtLast (c : Char) : List Char → Option (List Char × List Char)
  | [] => none
  | x :: xs =>
    match splitAtLast c xs with
    | some p => some (x :: p.1, p.2)
    | none => if x = c then some ([], xs) else none

/-! ## Address parser (src/utils/email.ts) -/

/-- `src/utils/email.ts` `isValidEmail`: `atIndex = email.indexOf('@')`;
reject when `atIndex < 1` (absent or position 0) or when the `@` is the last
character; otherwise require a `.` in `email.substring(atIndex + 1)`. -/
def isValidEmail (email : List Char) : Bool :=
  match splitAtFirst '@' email with
  | none => false
  | some (before, after) =>
    if before = [] then false
    else if after = [] then false
    else after.contains '.'

/-- `src/utils/email.ts` `extractDomain`: `atIndex = email.lastIndexOf('@')`;
`null` when absent or last; otherwise `email.substring(atIndex + 1).toLowerCase()`. -/
def extractDomain (email : List Char) : Option (List Char) :=
  match splitAtLast '@' email with
  | none => none
  | some (_, after) => if after = [] then none else some (toLowerL after)

/-- First match of the regex `/<([^>]+)>/` (group 1), as used by
`parseSingleEmail`. At each `<` the greedy `[^>]+` runs to the next `>`;
the match succeeds there iff that run is non-empty, otherwise the scan
resumes at the next position. -/
def execAngle : List Char → Option (List Char)
  | [] => none
  | ch :: rest =>
    if ch = '<' then
      match splitAtFirst '>' rest with
      | some (grabbed, _) => if grabbed = [] then execAngle rest else some grabbed
      | none => execAngle rest
    else execAngle rest

/-- The quote-stripping step of `parseSingleEmail`:
`if (name.startsWith('"') && name.endsWith('"')) name = name.slice(1, -1)`. -/
def stripQuotes (name : List Char) : List Char :=
  if name.head? = some '"' ∧ name.getLast? = some '"' then
    (name.drop 1).dropLast
  else name

/-- The display-name computation of `parseSingleEmail` for the angle-bracket
branch: `input.substring(0, input.indexOf('<')).trim()`, then quote stripping,
then `''` becomes `null`. -/
def angleName (input : List Char) : Option (List Char) :=
  let beforeLt := ((splitAtFirst '<' input).map Prod.fst).getD input
  let name := stripQuotes (trimL beforeLt)
  if name = [] then none else some name

/-- A parsed address, `src/utils/email.ts` `ParsedEmail`. -/
structure ParsedEmail where
  email : List Char
  name : Option (List Char)
  domain : List Char
  deriving DecidableEq, Repr

/-- `src/utils/email.ts` `parseSingleEmail`. The angle-bracket branch uses the
first regex match `/<([^>]+)>/`; its content is lowercased and trimmed and must
be valid, the name is the prefix before the first `<` with surrounding double
quotes stripped. Otherwise the whole input, lowercased and trimmed, is the
address with a `null` name. -/
def parseSingleEmail (input : List Char) : Option ParsedEmail :=
  match execAngle input with
  | some g =>
    let email := trimL (toLowerL g)
    if ¬ isValidEmail email then none
    else
      match extractDomain email with
      | none => none
      | some domain => some ⟨email, angleName input, domain⟩
  | none =>
    let email := trimL (toLowerL input)
    if ¬ isValidEmail email then none
    else
      match extractDomain email with
      | none => none
      | some domain => some ⟨email, none, domain⟩

/-- One step of `src/utils/email.ts` `splitEmailList`: the comma tokenizer
with `inQuotes` / `inAngleBrackets` flags. -/
def splitEmailListAux : List Char → Bool → Bool → List Char →
    List (List Char) → List (List Char)
  | [], _, _, current, results =>
    if current = [] then results else results ++ [current]
  | ch :: rest, inQ, inA, current, results =>
    if ch = '"' ∧ ¬ inA then
      splitEmailListAux rest (! inQ) inA (current ++ [ch]) results
    else if ch = '<' ∧ ¬ inQ then
      splitEmailListAux rest inQ true (current ++ [ch]) results
    else if ch = '>' ∧ ¬ inQ then
      splitEmailListAux rest inQ false (current ++ [ch]) results
    else if ch = ',' ∧ ¬ inQ ∧ ¬ inA then
      splitEmailListAux rest inQ inA [] (results ++ [current])
    else
      splitEmailListAux rest inQ inA (current ++ [ch]) results

/-- `src/utils/email.ts` `splitEmailList`. -/
def splitEmailList (header : List Char) : List (List Char) :=
  splitEmailListAux header false false [] []

/-- `src/utils/email.ts` `parseEmailHeader`: tokenize, trim each token, skip
empty tokens, parse each token, drop invalid ones silently. -/
def parseEmailHeader (header : List Char) : List ParsedEmail :=
  (splitEmailList header).filterMap (fun part =>
    let trimmed := trimL part
    if trimmed = [] then none else parseSingleEmail trimmed)

/-! ### Spec-side definitions for the parser claims

These two definitions follow the words of the specification (not the source);
they exist only to be compared against the source-derived functions above. -/

/-- Modelled from the spec (claim C5's wording): an address is valid iff it
contains exactly one `@`, at least one character on each side, and the part
after the `@` contains at least one `.`. -/
def isValidEmailClaim (email : List Char) : Bool :=
  (email.count '@' == 1) &&
    match splitAtFirst '@' email with
    | none => false
    | some (before, after) => (! before.isEmpty) && (! after.isEmpty) && after.contains '.'

/-- All groups matched by repeatedly applying `/<([^>]+)>/` (the regex's
global-scan semantics), used to express "the last angle-bracket group". -/
def allAngleGroupsAux : Nat → List Char → List (List Char)
  | 0, _ => []
  | _, [] => []
  | fuel + 1, ch :: rest =>
    if ch = '<' then
      match splitAtFirst '>' rest with
      | some (grabbed, remaining) =>
        if grabbed = [] then allAngleGroupsAux fuel rest
        else grabbed :: allAngleGroupsAux fuel remaining
      | none => allAngleGroupsAux fuel rest
    else allAngleGroupsAux fuel rest

/-- All groups of the global scan; the fuel `s.length` dominates the number of
scan steps, so the scan always runs to completion. -/
def allAngleGroups (s : List Char) : List (List Char) :=
  allAngleGroupsAux s.length s

/-- Modelled from the spec (claim C6's wording): the content of the last
angle-bracket group of a token. -/
def lastAngleGroup (s : List Char) : Option (List Char) :=
  (allAngleGroups s).getLast?

/-! ## A regular-expression engine (Brzozowski derivatives)

Used to embed the `RegExp` literals of `src/types/constants.ts`
(`TRANSACTIONAL_EMAIL_PATTERNS`). Case-insensitive matching (`/i`) is
modelled by writing the patterns lowercase and lowercasing the input. A
JS regex without `^`/`$` searches anywhere, so the embedded term carries
explicit `Σ*` padding on the unanchored sides. -/

inductive RE where
  | emp : RE
  | eps : RE
  | cls (p : Char → Bool) : RE
  | cat (a b : RE) : RE
  | alt (a b : RE) : RE
  | star (a : RE) : RE

namespace RE

def nullable : RE → Bool
  | emp => false
  | eps => true
  | cls _ => false
  | cat a b => a.nullable && b.nullable
  | alt a b => a.nullable || b.nullable
  | star _ => true

def deriv : RE → Char → RE
  | emp, _ => emp
  | eps, _ => emp
  | cls p, c => if p c then eps else emp
  | cat a b, c =>
    if a.nullable then alt (cat (a.deriv c) b) (b.deriv c) else cat (a.deriv c) b
  | alt a b, c => alt (a.deriv c) (b.deriv c)
  | star a, c => cat (a.deriv c) (star a)

/-- Whole-string match via derivatives. -/
def rmatch : RE → List Char → Bool
  | r, [] => r.nullable
  | r, c :: s => (r.deriv c).rmatch s

def chr (c : Char) : RE := cls (fun x => x == c)

def lit (s : List Char) : RE := s.foldr (fun c r => cat (chr c) r) eps

def opt (r : RE) : RE := alt eps r

def plus (r : RE) : RE := cat r (star r)

/-- `Σ*`: any characters. -/
def anyStar : RE := star (cls (fun _ => true))

/-- `[._-]?`, the optional separator of the local-part patterns. -/
def sepOpt : RE := opt (cls (fun c => c == '.' || c == '_' || c == '-'))

/-- `[^.]+`. -/
def noDotPlus : RE := plus (cls (fun c => c != '.'))

/-- `[^@]+`. -/
def noAtPlus : RE := plus (cls (fun c => c != '@'))

/-- `/^X/` as a whole-string regex: `X Σ*`. -/
def startP (r : RE) : RE := cat r anyStar

/-- `/Y$/` as a whole-string regex: `Σ* Y`. -/
def endP (r : RE) : RE := cat anyStar r

/-- an unanchored `/Z/` as a whole-string regex: `Σ* Z Σ*`. -/
def somewhereP (r : RE) : RE := cat anyStar (cat r anyStar)

def cats : List RE → RE
  | [] => eps
  | [r] => r
  | r :: rest => cat r (cats rest)

end RE

/-! ## Blacklist constants (src/types/constants.ts, unnamed/part_009) -/

/-- `WHITELISTED_DOMAINS`. -/
def WHITELISTED_DOMAINS : List (List Char) := ["playstation.sony.com".data]

/-- A marketing-subdomain pattern `/@lead\.[^.]+\.[^.]+$/i` (with `lead`
already carrying its optional parts). -/
def subdomainP (lead : RE) : RE :=
  RE.endP (RE.cats [lead, RE.chr '.', RE.noDotPlus, RE.chr '.', RE.noDotPlus])

/-- `TRANSACTIONAL_EMAIL_PATTERNS`, in source order. Each entry embeds one
`RegExp` literal as a whole-string regex. -/
def TRANSACTIONAL_EMAIL_PATTERNS : List RE := [
  -- /^no[._-]?reply/i
  RE.startP (RE.cats [RE.lit "no".data, RE.sepOpt, RE.lit "reply".data]),
  -- /^do[._-]?not[._-]?reply/i
  RE.startP (RE.cats [RE.lit "do".data, RE.sepOpt, RE.lit "not".data,
    RE.sepOpt, RE.lit "reply".data]),
  -- /^root@/i
  RE.startP (RE.lit "root@".data),
  -- /^mailer[._-]?daemon@/i
  RE.startP (RE.cats [RE.lit "mailer".data, RE.sepOpt, RE.lit "daemon@".data]),
  -- /^postmaster@/i
  RE.startP (RE.lit "postmaster@".data),
  -- /^bounce[s]?@/i
  RE.startP (RE.cats [RE.lit "bounce".data, RE.opt (RE.chr 's'), RE.chr '@']),
  -- /^auto[._-]?reply/i
  RE.startP (RE.cats [RE.lit "auto".data, RE.sepOpt, RE.lit "reply".data]),
  -- /^automated/i
  RE.startP (RE.lit "automated".data),
  -- /^notification[s]?@/i
  RE.startP (RE.cats [RE.lit "notification".data, RE.opt (RE.chr 's'), RE.chr '@']),
  -- /^notify@/i
  RE.startP (RE.lit "notify@".data),
  -- /^alert[s]?@/i
  RE.startP (RE.cats [RE.lit "alert".data, RE.opt (RE.chr 's'), RE.chr '@']),
  -- /^news(letter)?@/i
  RE.startP (RE.cats [RE.lit "news".data, RE.opt (RE.lit "letter".data), RE.chr '@']),
  -- /^marketing@/i
  RE.startP (RE.lit "marketing@".data),
  -- /^promo(tion)?s?@/i
  RE.startP (RE.cats [RE.lit "promo".data, RE.opt (RE.lit "tion".data),
    RE.opt (RE.chr 's'), RE.chr '@']),
  -- /^campaign[s]?@/i
  RE.startP (RE.cats [RE.lit "campaign".data, RE.opt (RE.chr 's'), RE.chr '@']),
  -- /^support@/i
  RE.startP (RE.lit "support@".data),
  -- /^info@/i
  RE.startP (RE.lit "info@".data),
  -- /^sales@/i
  RE.startP (RE.lit "sales@".data),
  -- /^hello@/i
  RE.startP (RE.lit "hello@".data),
  -- /^contact@/i
  RE.startP (RE.lit "contact@".data),
  -- /^team@/i
  RE.startP (RE.lit "team@".data),
  -- /^feedback@/i
  RE.startP (RE.lit "feedback@".data),
  -- /^billing@/i
  RE.startP (RE.lit "billing@".data),
  -- /^subscription[s]?@/i
  RE.startP (RE.cats [RE.lit "subscription".data, RE.opt (RE.chr 's'), RE.chr '@']),
  -- /^update[s]?@/i
  RE.startP (RE.cats [RE.lit "update".data, RE.opt (RE.chr 's'), RE.chr '@']),
  -- /^service@/i
  RE.startP (RE.lit "service@".data),
  -- /^help@/i
  RE.startP (RE.lit "help@".data),
  -- /^admin@/i
  RE.startP (RE.lit "admin@".data),
  -- /^webmaster@/i
  RE.startP (RE.lit "webmaster@".data),
  -- /\.edu$/i
  RE.endP (RE.lit ".edu".data),
  -- /\.edu\s/i
  RE.somewhereP (RE.cat (RE.lit ".edu".data) (RE.cls isWs)),
  -- /@[^@]+\.[^.]+\.[^.]+$/i
  RE.endP (RE.cats [RE.chr '@', RE.noAtPlus, RE.chr '.', RE.noDotPlus,
    RE.chr '.', RE.noDotPlus]),
  -- /@email\.[^.]+\.[^.]+$/i
  subdomainP (RE.lit "@email".data),
  -- /@e\.[^.]+\.[^.]+$/i
  subdomainP (RE.lit "@e".data),
  -- /@t\.[^.]+\.[^.]+$/i
  subdomainP (RE.lit "@t".data),
  -- /@m\.[^.]+\.[^.]+$/i
  subdomainP (RE.lit "@m".data),
  -- /@action\.[^.]+\.[^.]+$/i
  subdomainP (RE.lit "@action".data),
  -- /@notify\.[^.]+\.[^.]+$/i
  subdomainP (RE.lit "@notify".data),
  -- /@notifications?\.[^.]+\.[^.]+$/i
  subdomainP (RE.cat (RE.lit "@notification".data) (RE.opt (RE.chr 's'))),
  -- /@alerts?\.[^.]+\.[^.]+$/i
  subdomainP (RE.cat (RE.lit "@alert".data) (RE.opt (RE.chr 's'))),
  -- /@mail\.[^.]+\.[^.]+$/i
  subdomainP (RE.lit "@mail".data),
  -- /@news\.[^.]+\.[^.]+$/i
  subdomainP (RE.lit "@news".data),
  -- /@promo\.[^.]+\.[^.]+$/i
  subdomainP (RE.lit "@promo".data),
  -- /@offers?\.[^.]+\.[^.]+$/i
  subdomainP (RE.cat (RE.lit "@offer".data) (RE.opt (RE.chr 's'))),
  -- /@campaign\.[^.]+\.[^.]+$/i
  subdomainP (RE.lit "@campaign".data),
  -- /@info\.[^.]+\.[^.]+$/i
  subdomainP (RE.lit "@info".data),
  -- /@messages?\.[^.]+\.[^.]+$/i
  subdomainP (RE.cat (RE.lit "@message".data) (RE.opt (RE.chr 's')))]

/-! ## Blacklist service (src/services/blacklist.ts) -/

/-- Model of `String.prototype.includes`. -/
def includesL (sub : List Char) : List Char → Bool
  | [] => sub.isEmpty
  | c :: rest => sub.isPrefixOf (c :: rest) || includesL sub rest

/-- `BlacklistService.isTransactional`: whitelist check first
(`emailLower.includes('@' + domain)`), then the ordered pattern table
(`pattern.test(email)`, `/i` modelled by lowercasing). -/
def isTransactional (email : List Char) : Bool :=
  let emailLower := toLowerL email
  if WHITELISTED_DOMAINS.any (fun domain => includesL ('@' :: domain) emailLower) then
    false
  else
    TRANSACTIONAL_EMAIL_PATTERNS.any (fun pattern => pattern.rmatch emailLower)

/-- A `blacklist` table row (minus timestamp bookkeeping). -/
structure BlacklistRow where
  category : List Char
  source : Option (List Char)
  deriving DecidableEq, Repr

/-- First-match association-list lookup (`SELECT ... WHERE key = ? ... first()`). -/
def alookup {α β : Type} [DecidableEq α] : List (α × β) → α → Option β
  | [], _ => none
  | e :: rest, k => if e.1 = k then some e.2 else alookup rest k

/-- `INSERT ... ON CONFLICT(key) DO UPDATE`: replace the value at the key,
or append a fresh row. -/
def upsertA {α β : Type} [DecidableEq α] : List (α × β) → α → β → List (α × β)
  | [], k, v => [(k, v)]
  | e :: rest, k, v => if e.1 = k then (k, v) :: rest else e :: upsertA rest k v

/-- `UPDATE ... WHERE key = ?`: rewrite every matching row in place. -/
def updateA {α β : Type} [DecidableEq α] (l : List (α × β)) (k : α) (f : β → β) :
    List (α × β) :=
  l.map (fun e => if e.1 = k then (e.1, f e.2) else e)

/-- The `BlacklistService` state: the persisted `blacklist` table and the
optional in-memory domain cache (`domainCache : Set<string> | null`). -/
structure BlacklistState where
  table : List (List Char × BlacklistRow)
  cache : Option (List (List Char))
  deriving DecidableEq, Repr

/-- `BlacklistService.add`: lowercase the domain, upsert the persisted row,
and insert the domain into the cache when the cache is loaded. -/
def bsAdd (st : BlacklistState) (domain category : List Char)
    (source : Option (List Char)) : BlacklistState :=
  let normalizedDomain := toLowerL domain
  { table := upsertA st.table normalizedDomain ⟨category, source⟩
    cache :=
      match st.cache with
      | some c => some (if normalizedDomain ∈ c then c else c ++ [normalizedDomain])
      | none => none }

/-- `BlacklistService.isDomainBlacklisted`: cache lookup when the cache is
loaded, otherwise a single-row existence probe against the table. -/
def bsIsDomainBlacklisted (st : BlacklistState) (domain : List Char) : Bool :=
  match st.cache with
  | some c => decide (toLowerL domain ∈ c)
  | none => (alookup st.table (toLowerL domain)).isSome

/-- `BlacklistService.isBlacklisted` over a blacklist state: transactional
patterns first, then the domain set. -/
def bsIsBlacklisted (st : BlacklistState) (email : List Char) : Bool :=
  if isTransactional email then true
  else
    match extractDomain email with
    | none => false
    | some domain => bsIsDomainBlacklisted st domain

/-! ## Recent-thread references (src/repositories/contact.ts, email.ts) -/

/-- `src/types/constants.ts` `MAX_THREADS_PER_CONTACT`. -/
def MAX_THREADS_PER_CONTACT : Nat := 100

/-- A `ThreadReference` (`{threadId, account, timestamp}`). -/
structure ThreadReference where
  threadId : List Char
  account : List Char
  timestamp : List Char
  deriving DecidableEq, Repr

/-- `threads.findIndex(t => t.threadId === tid)` followed by
`threads.splice(existingIndex, 1)`: remove the first entry with the given
thread id (identity when absent). -/
def spliceThread (tid : List Char) : List ThreadReference → List ThreadReference
  | [] => []
  | t :: rest => if t.threadId = tid then rest else t :: spliceThread tid rest

/-- The thread-list mutation shared verbatim by
`ContactRepository.updateStatsAndThread` and
`EmailRepository.updateStatsAndThread`: remove any entry with the same
`threadId`, `unshift` the new entry, cap at `MAX_THREADS_PER_CONTACT`. -/
def applyRecentThread (threads : List ThreadReference)
    (thread : ThreadReference) : List ThreadReference :=
  (thread :: spliceThread thread.threadId threads).take MAX_THREADS_PER_CONTACT

/-- The thread ids of a list, for the dedup invariant. -/
def threadIds (l : List ThreadReference) : List (List Char) :=
  l.map (·.threadId)

/-! ## The entity store and the batched message processor
(src/services/sync.ts, second file version: the day+page batch design wired
into the driver; `processMessage` at lines 1073–1409) -/

/-- SQLite TEXT comparison (byte-wise lexicographic; all dates here are
ASCII ISO-8601 strings, so code-point order coincides). -/
def strLtB : List Char → List Char → Bool
  | [], [] => false
  | [], _ :: _ => true
  | _ :: _, [] => false
  | a :: as, b :: bs =>
    if a.val < b.val then true
    else if b.val < a.val then false
    else strLtB as bs

/-- SQL `MIN` on TEXT. -/
def strMin (a b : List Char) : List Char := if strLtB b a then b else a

/-- SQL `MAX` on TEXT. -/
def strMax (a b : List Char) : List Char := if strLtB a b then b else a

/-- The five claim-relevant stat columns carried by every stat-bearing entity
(`created_at`/`updated_at` bookkeeping and the always-zero `meetings_*`
columns are omitted). -/
structure Stats where
  emailsTo : Nat
  emailsFrom : Nat
  emailsIncluded : Nat
  firstSeen : Option (List Char)
  lastSeen : Option (List Char)
  deriving DecidableEq, Repr

/-- Column defaults of the CREATE TABLE statements: counters 0, seen-bounds NULL. -/
def Stats.init : Stats := ⟨0, 0, 0, none, none⟩

/-- The header role of a parsed address: `'from' | 'to' | 'cc'`. -/
inductive Role where
  | rFrom : Role
  | rTo : Role
  | rCc : Role
  deriving DecidableEq, Repr

/-- One delta triple, as aggregated in `processMessage` phase 4. -/
structure Delta where
  dTo : Nat
  dFrom : Nat
  dIncl : Nat
  deriving DecidableEq, Repr

def Delta.zero : Delta := ⟨0, 0, 0⟩

def Delta.add (a b : Delta) : Delta := ⟨a.dTo + b.dTo, a.dFrom + b.dFrom, a.dIncl + b.dIncl⟩

/-- The per-address delta of `processMessage`:
`emailsTo = fromMe && isTo ? 1 : 0`, `emailsFrom = !fromMe && isFrom ? 1 : 0`,
`emailsIncluded = isIncluded ? 1 : 0`. -/
def roleDelta (fromMe : Bool) (role : Role) : Delta :=
  ⟨if fromMe ∧ role = Role.rTo then 1 else 0,
   if ¬ fromMe ∧ role = Role.rFrom then 1 else 0,
   if role = Role.rCc then 1 else 0⟩

/-- The `UPDATE ... SET emails_* = emails_* + ?, last_seen = MAX(COALESCE(
last_seen, ?), ?), first_seen = MIN(COALESCE(first_seen, ?), ?)` statement
applied to one row's stats. -/
def Stats.applyUpdate (s : Stats) (d : Delta) (messageDate : List Char) : Stats :=
  { emailsTo := s.emailsTo + d.dTo
    emailsFrom := s.emailsFrom + d.dFrom
    emailsIncluded := s.emailsIncluded + d.dIncl
    lastSeen := some (strMax (s.lastSeen.getD messageDate) messageDate)
    firstSeen := some (strMin (s.firstSeen.getD messageDate) messageDate) }

/-- A `companies` row. -/
structure CompanyRow where
  name : Option (List Char)
  stats : Stats
  deriving DecidableEq, Repr

/-- A `domains` row. -/
structure DomainRow where
  companyId : Nat
  isPrimary : Bool
  stats : Stats
  deriving DecidableEq, Repr

/-- A `contacts` row. -/
structure ContactRow where
  companyId : Nat
  name : Option (List Char)
  recentThreads : List ThreadReference
  stats : Stats
  deriving DecidableEq, Repr

/-- An `emails` row. -/
structure EmailRow where
  contactId : Nat
  domain : Option (List Char)
  nameObserved : Option (List Char)
  recentThreads : List ThreadReference
  stats : Stats
  deriving DecidableEq, Repr

/-- The D1 store: the four entity tables keyed by their primary keys, the
`processed_messages` ids, and the blacklist domain set (the lowercased
snapshot `loadCache` operates on). Random `generateId()` values are modelled
by the `nextId` counter. -/
structure Store where
  companies : List (Nat × CompanyRow)
  domains : List (List Char × DomainRow)
  contacts : List (Nat × ContactRow)
  emails : List (List Char × EmailRow)
  processed : List (List Char)
  blacklist : List (List Char)
  nextId : Nat
  deriving DecidableEq, Repr

/-- The empty store. -/
def Store.empty : Store := ⟨[], [], [], [], [], [], 0⟩

/-- `BlacklistService.isBlacklisted` against the loaded domain cache:
transactional patterns first, then domain membership. -/
def storeIsBlacklisted (bl : List (List Char)) (email : List Char) : Bool :=
  if isTransactional email then true
  else
    match extractDomain email with
    | none => false
    | some domain => decide (toLowerL domain ∈ bl)

/-- A provider message; only the ingestion-relevant parts. The `Date`-header
resolution (`new Date(dateStr).toISOString()` with `internalDate` fallback)
is JS date parsing outside the embedding, so the resolved ISO date is carried
as a field. -/
structure Message where
  id : List Char
  threadId : List Char
  fromH : Option (List Char)
  toH : Option (List Char)
  ccH : Option (List Char)
  messageDate : List Char
  deriving DecidableEq, Repr

/-- A parsed address tagged with its header role (`{ ...parsed, role }`). -/
structure TaggedEmail where
  email : List Char
  name : Option (List Char)
  domain : List Char
  role : Role
  deriving DecidableEq, Repr

def tagRole (r : Role) (p : ParsedEmail) : TaggedEmail := ⟨p.email, p.name, p.domain, r⟩

/-- `[...new Set(xs)]`: deduplicate keeping the first occurrence order. -/
def dedupFirstAux (seen : List (List Char)) : List (List Char) → List (List Char)
  | [] => []
  | x :: xs =>
    if x ∈ seen then dedupFirstAux seen xs
    else x :: dedupFirstAux (x :: seen) xs

def dedupFirst (l : List (List Char)) : List (List Char) := dedupFirstAux [] l

/-- The `emailToContact` map values (`{contactId, contactName, companyId}`). -/
structure ContactInfo where
  contactId : Nat
  contactName : Option (List Char)
  companyId : Nat
  deriving DecidableEq, Repr

/-- A staged new contact+email insert pair of `processMessage` phase 3. -/
structure NewContact where
  contactId : Nat
  companyId : Nat
  name : Option (List Char)
  email : List Char
  deriving DecidableEq, Repr

/-- The phase-4 aggregation maps (JS `Map`s: insertion-ordered, `set` on an
existing key updates in place). -/
structure Agg where
  companyStats : List (Nat × Delta)
  domainStats : List (List Char × Delta)
  contactStats : List (Nat × Delta)
  emailStats : List (List Char × Delta)
  contactNameUpdates : List (Nat × List Char)
  deriving DecidableEq, Repr

def Agg.empty : Agg := ⟨[], [], [], [], []⟩

/-- `const cs = map.get(k) ?? zero; cs += delta; map.set(k, cs)`. -/
def bumpD {κ : Type} [DecidableEq κ] : List (κ × Delta) → κ → Delta → List (κ × Delta)
  | [], k, d => [(k, d)]
  | e :: rest, k, d =>
    if e.1 = k then (e.1, e.2.add d) :: rest else e :: bumpD rest k d

/-- One iteration of the phase-4 loop over `validEmails`. -/
def aggStep (fromMe : Bool) (d2c : List (List Char × Nat))
    (e2c : List (List Char × ContactInfo)) (acc : Agg) (e : TaggedEmail) : Agg :=
  match alookup d2c e.domain, alookup e2c e.email with
  | some companyId, some info =>
    let delta := roleDelta fromMe e.role
    { companyStats := bumpD acc.companyStats companyId delta
      domainStats := bumpD acc.domainStats e.domain delta
      contactStats := bumpD acc.contactStats info.contactId delta
      emailStats := bumpD acc.emailStats e.email delta
      contactNameUpdates :=
        match e.name, info.contactName with
        | some n, none => acc.contactNameUpdates ++ [(info.contactId, n)]
        | _, _ => acc.contactNameUpdates }
  | _, _ => acc

/-- `processMessage` phase 4: aggregate stats per entity over `validEmails`. -/
def aggregateStats (fromMe : Bool) (d2c : List (List Char × Nat))
    (e2c : List (List Char × ContactInfo)) (entries : List TaggedEmail) : Agg :=
  entries.foldl (aggStep fromMe d2c e2c) Agg.empty

/-- The database operations a message processing commits, for the ordering
claims: the insert batch, the update batch, and the `processed_messages`
insert. -/
inductive DbOp where
  | insertBatch : DbOp
  | updateBatch : DbOp
  | markProcessed : DbOp
  deriving DecidableEq, Repr

/-- `markMessageProcessed`: `INSERT OR IGNORE INTO processed_messages`. -/
def markProcessed (st : Store) (id : List Char) : Store :=
  if id ∈ st.processed then st else { st with processed := st.processed ++ [id] }

/-- Steps 1–4 of `SyncService.processMessage` (sync.ts:1086–1141): header
extraction and parsing, role tagging, the `fromMe` classification, and the
self/blacklist filter. Returns `(validEmails, fromMe)`. -/
def pmFilter (self : List Char) (bl : List (List Char)) (m : Message) :
    List TaggedEmail × Bool :=
  let allEmails : List TaggedEmail :=
    (match m.fromH with
      | some h => (parseEmailHeader h).map (tagRole Role.rFrom)
      | none => []) ++
    (match m.toH with
      | some h => (parseEmailHeader h).map (tagRole Role.rTo)
      | none => []) ++
    (match m.ccH with
      | some h => (parseEmailHeader h).map (tagRole Role.rCc)
      | none => [])
  let myEmailLower := toLowerL self
  let fromMe := allEmails.any (fun e => e.role == Role.rFrom && e.email == myEmailLower)
  (allEmails.filter (fun e =>
    ! (e.email == myEmailLower) && ! storeIsBlacklisted bl e.email), fromMe)

/-- The insert plan of `processMessage` phases 1–3: the extended
`domainToCompanyId` and `emailToContact` maps, the staged Company+Domain and
Contact+EmailAddress inserts, and the advanced fresh-id counter. -/
structure InsertPlan where
  d2c : List (List Char × Nat)
  e2c : List (List Char × ContactInfo)
  newCompanies : List (Nat × List Char)
  newContacts : List NewContact
  nextId : Nat
  deriving DecidableEq, Repr

/-- `processMessage` phases 1–3 (sync.ts:1143–1234): bulk lookups of existing
domains and emails (the email lookup is the join with `contacts` delivering
the contact name and company id), then planning of new companies/domains and
new contacts/emails, extending the two maps as the loops proceed. -/
def pmPlan (st : Store) (validEmails : List TaggedEmail) : InsertPlan :=
  let uniqueDomains := dedupFirst (validEmails.map (·.domain))
  let uniqueAddrs := dedupFirst (validEmails.map (·.email))
  let d2c0 : List (List Char × Nat) := uniqueDomains.filterMap (fun d =>
    (alookup st.domains d).map (fun r => (d, r.companyId)))
  let e2c0 : List (List Char × ContactInfo) := uniqueAddrs.filterMap (fun a =>
    match alookup st.emails a with
    | some er => (alookup st.contacts er.contactId).map (fun cr =>
        (a, ⟨er.contactId, cr.name, cr.companyId⟩))
    | none => none)
  let p2 := uniqueDomains.foldl (fun (acc : (List (List Char × Nat)) ×
      (List (Nat × List Char)) × Nat) d =>
    if (alookup acc.1 d).isSome then acc
    else (acc.1 ++ [(d, acc.2.2)], acc.2.1 ++ [(acc.2.2, d)], acc.2.2 + 1))
    (d2c0, [], st.nextId)
  let p3 := uniqueAddrs.foldl (fun (acc : (List (List Char × ContactInfo)) ×
      (List NewContact) × Nat) a =>
    if (alookup acc.1 a).isSome then acc
    else
      match validEmails.find? (fun e => e.email == a) with
      | none => acc
      | some parsed =>
        match alookup p2.1 parsed.domain with
        | none => acc
        | some companyId =>
          (acc.1 ++ [(a, ⟨acc.2.2, parsed.name, companyId⟩)],
            acc.2.1 ++ [⟨acc.2.2, companyId, parsed.name, a⟩], acc.2.2 + 1))
    (e2c0, [], p2.2.2)
  ⟨p2.1, p3.1, p2.2.1, p3.2.1, p3.2.2⟩

/-- The single insert batch of `processMessage` (sync.ts:1198–1261): a
company (name = the domain string) plus a primary domain per new domain, and
a contact (`recent_threads = '[]'`) plus an email
(`domain = extractDomain(email)`, `name_observed = name`) per new address. -/
def pmInsert (st : Store) (plan : InsertPlan) : Store :=
  { st with
    companies := st.companies ++
      plan.newCompanies.map (fun c => (c.1, ⟨some c.2, Stats.init⟩)),
    domains := st.domains ++
      plan.newCompanies.map (fun c => (c.2, ⟨c.1, true, Stats.init⟩)),
    contacts := st.contacts ++
      plan.newContacts.map (fun c => (c.contactId, ⟨c.companyId, c.name, [], Stats.init⟩)),
    emails := st.emails ++
      plan.newContacts.map (fun c =>
        (c.email, ⟨c.contactId, extractDomain c.email, c.name, [], Stats.init⟩)),
    nextId := plan.nextId }

/-- The single update batch of `processMessage` (sync.ts:1323–1406): one
relative-delta UPDATE with first/last-seen MIN/MAX per aggregated Company,
Domain, Contact and EmailAddress key, plus the write-once
`UPDATE contacts SET name = ? WHERE id = ? AND name IS NULL` statements.
No recent-threads mutation is staged. -/
def pmUpdate (st : Store) (agg : Agg) (messageDate : List Char) : Store :=
  { st with
    companies := agg.companyStats.foldl (fun t e =>
      updateA t e.1 (fun r => { r with stats := r.stats.applyUpdate e.2 messageDate }))
      st.companies,
    domains := agg.domainStats.foldl (fun t e =>
      updateA t e.1 (fun r => { r with stats := r.stats.applyUpdate e.2 messageDate }))
      st.domains,
    contacts := agg.contactNameUpdates.foldl (fun t e =>
      updateA t e.1 (fun r => if r.name = none then { r with name := some e.2 } else r))
      (agg.contactStats.foldl (fun t e =>
        updateA t e.1 (fun r => { r with stats := r.stats.applyUpdate e.2 messageDate }))
        st.contacts),
    emails := agg.emailStats.foldl (fun t e =>
      updateA t e.1 (fun r => { r with stats := r.stats.applyUpdate e.2 messageDate }))
      st.emails }

/-- The committed batches of `processMessage`, in order: the insert batch
when any insert is staged, then the update batch when any update is staged. -/
def pmOps (plan : InsertPlan) (agg : Agg) : List DbOp :=
  (if plan.newCompanies.isEmpty && plan.newContacts.isEmpty then []
    else [DbOp.insertBatch]) ++
  (if agg.companyStats.isEmpty && agg.domainStats.isEmpty &&
      agg.contactStats.isEmpty && agg.emailStats.isEmpty &&
      agg.contactNameUpdates.isEmpty then [] else [DbOp.updateBatch])

/-- Phases 1–4 of `processMessage` after the early exit: plan, insert batch,
in-memory aggregation, update batch. -/
def pmCommit (st : Store) (fe : List TaggedEmail × Bool) (m : Message) :
    Store × List DbOp :=
  let plan := pmPlan st fe.1
  let agg := aggregateStats fe.2 plan.d2c plan.e2c fe.1
  (pmUpdate (pmInsert st plan) agg m.messageDate, pmOps plan agg)

/-- `SyncService.processMessage` (the batched version, sync.ts:1073–1409),
returning the resulting store and the committed batches in order: parse and
filter, return a zero-stat result when no address survives, otherwise commit
the insert batch and then the update batch. -/
def processMessage (self account : List Char) (st : Store) (m : Message) :
    Store × List DbOp :=
  if (pmFilter self st.blacklist m).1.isEmpty then (st, [])
  else pmCommit st (pmFilter self st.blacklist m) m

/-- The per-message step of the cold `batchSync` page loop (sync.ts:832–857):
skip if processed, otherwise mark processed BEFORE the processing commits. -/
def batchSyncStep (self account : List Char) (st : Store) (m : Message) :
    Store × List DbOp :=
  if m.id ∈ st.processed then (st, [])
  else
    let r := processMessage self account (markProcessed st m.id) m
    (r.1, DbOp.markProcessed :: r.2)

/-- The per-message step of the hot `incrementalSync` history loop
(sync.ts:1020–1042): skip if processed, otherwise process FIRST and mark
processed after the mutation batches. -/
def incrementalSyncStep (self account : List Char) (st : Store) (m : Message) :
    Store × List DbOp :=
  if m.id ∈ st.processed then (st, [])
  else
    let r := processMessage self account st m
    (markProcessed r.1 m.id, r.2 ++ [DbOp.markProcessed])

/-- Replaying a message sequence through the cold batch path. -/
def replayBatch (self account : List Char) (st : Store) (ms : List Message) : Store :=
  ms.foldl (fun s m => (batchSyncStep self account s m).1) st

/-! ## EmailRepository.findOrCreate (src/repositories/email.ts:78–99) -/

/-- `EmailRepository.findOrCreate`: look the (lowercased) address up; when it
exists and carries a null `name_observed` while a non-null observation
arrives, upgrade it; when it exists otherwise, change nothing; when absent,
create the row with `name_observed` set to the observation. Returns the store
and the `isNew` flag. -/
def emailFindOrCreate (st : Store) (email : List Char) (contactId : Nat)
    (domain : List Char) (nameObserved : Option (List Char)) : Store × Bool :=
  match alookup st.emails (toLowerL email) with
  | some existing =>
    match nameObserved, existing.nameObserved with
    | some _, none =>
      let emails' := updateA st.emails (toLowerL email)
        (fun r => { r with nameObserved := nameObserved })
      ({ st with emails := emails' }, false)
    | _, _ => (st, false)
  | none =>
    let row : EmailRow := ⟨contactId, some (toLowerL domain), nameObserved, [], Stats.init⟩
    ({ st with emails := st.emails ++ [(toLowerL email, row)] }, true)

/-! ## Helper definitions for the aggregation and ordering claims -/

/-- Delta read from an aggregation map (`map.get(k) ?? zero`). -/
def getD {κ : Type} [DecidableEq κ] (m : List (κ × Delta)) (k : κ) : Delta :=
  (alookup m k).getD Delta.zero

/-- Sum of a list of deltas. -/
def deltaSum (l : List Delta) : Delta := l.foldl Delta.add Delta.zero

/-- The Company key an entry of the phase-4 loop contributes to (`none` when
either lookup misses and the loop `continue`s). -/
def aggKeyCompany (d2c : List (List Char × Nat))
    (e2c : List (List Char × ContactInfo)) (e : TaggedEmail) : Option Nat :=
  match alookup d2c e.domain, alookup e2c e.email with
  | some companyId, some _ => some companyId
  | _, _ => none

/-- The Domain key an entry contributes to. -/
def aggKeyDomain (d2c : List (List Char × Nat))
    (e2c : List (List Char × ContactInfo)) (e : TaggedEmail) : Option (List Char) :=
  match alookup d2c e.domain, alookup e2c e.email with
  | some _, some _ => some e.domain
  | _, _ => none

/-- The Contact key an entry contributes to. -/
def aggKeyContact (d2c : List (List Char × Nat))
    (e2c : List (List Char × ContactInfo)) (e : TaggedEmail) : Option Nat :=
  match alookup d2c e.domain, alookup e2c e.email with
  | some _, some info => some info.contactId
  | _, _ => none

/-- The EmailAddress key an entry contributes to. -/
def aggKeyEmail (d2c : List (List Char × Nat))
    (e2c : List (List Char × ContactInfo)) (e : TaggedEmail) : Option (List Char) :=
  match alookup d2c e.domain, alookup e2c e.email with
  | some _, some _ => some e.email
  | _, _ => none

/-- One step of the one-map fold a single projection of `aggregateStats`
reduces to. -/
def bumpOn {κ : Type} [DecidableEq κ] (fromMe : Bool)
    (key : TaggedEmail → Option κ) (t : List (κ × Delta)) (e : TaggedEmail) :
    List (κ × Delta) :=
  match key e with
  | some k => bumpD t k (roleDelta fromMe e.role)
  | none => t

/-- The one-map fold a single projection of `aggregateStats` reduces to. -/
def aggFoldOn {κ : Type} [DecidableEq κ] (fromMe : Bool)
    (key : TaggedEmail → Option κ) (entries : List TaggedEmail)
    (acc : List (κ × Delta)) : List (κ × Delta) :=
  entries.foldl (bumpOn fromMe key) acc

/-- The spec-side per-key sum: total delta of the entries mapped to key `k`. -/
def keyDeltaSum {κ : Type} [DecidableEq κ] (fromMe : Bool)
    (key : TaggedEmail → Option κ) (entries : List TaggedEmail) (k : κ) : Delta :=
  deltaSum ((entries.filter (fun e => key e == some k)).map
    (fun e => roleDelta fromMe e.role))

/-- `true` iff some mutation batch is committed before the
`processed_messages` insert in an operation trace. -/
def mutationBeforeMark (ops : List DbOp) : Bool :=
  (ops.takeWhile (fun o => o != DbOp.markProcessed)).any
    (fun o => o == DbOp.insertBatch || o == DbOp.updateBatch)

/-! ## Concrete test vectors (the spec's end-to-end scenarios) -/

/-- Scenario A: single inbound message from `"Jane Roe" <jane@beta.io>`. -/
def scenarioAMessage : Message :=
  ⟨"m1".data, "t1".data, some "\"Jane Roe\" <jane@beta.io>".data,
    some "me@acme.com".data, none, "2024-03-01T10:00:00Z".data⟩

/-- Scenario B: outbound to two recipients at the same domain. -/
def scenarioBMessage : Message :=
  ⟨"m2".data, "t2".data, some "me@acme.com".data,
    some "a@beta.io, b@beta.io".data, none, "2024-03-02T10:00:00Z".data⟩

/-- The store after scenario A runs through the cold batch path. -/
def scenarioAStore : Store :=
  (batchSyncStep "me@acme.com".data "work".data Store.empty scenarioAMessage).1

/-- The store after scenario B runs through the cold batch path. -/
def scenarioBStore : Store :=
  (batchSyncStep "me@acme.com".data "work".data Store.empty scenarioBMessage).1

/-- First message of the observed-name scenario: `jane@beta.io` with no
display name. -/
def nameMsg1 : Message :=
  ⟨"n1".data, "t1".data, some "jane@beta.io".data,
    some "me@acme.com".data, none, "2024-03-01T10:00:00Z".data⟩

/-- Second message of the observed-name scenario: the same address now with
the display name `Jane Roe`. -/
def nameMsg2 : Message :=
  ⟨"n2".data, "t2".data, some "\"Jane Roe\" <jane@beta.io>".data,
    some "me@acme.com".data, none, "2024-03-02T10:00:00Z".data⟩

/-- The store after both observed-name messages run through the batch path. -/
def nameScenarioStore : Store :=
  replayBatch "me@acme.com".data "work".data Store.empty [nameMsg1, nameMsg2]

/-! ## Lemmas about the string primitives -/

theorem splitAtFirst_eq_some {c : Char} {s b a : List Char}
    (h : splitAtFirst c s = some (b, a)) : s = b ++ c :: a ∧ c ∉ b := by
  induction s generalizing b a with
  | nil => simp [splitAtFirst] at h
  | cons x xs ih =>
    by_cases hx : x = c
    · simp [splitAtFirst, hx] at h
      obtain ⟨hb, ha⟩ := h
      subst ha; subst hb
      simp [hx]
    · simp only [splitAtFirst, if_neg hx] at h
      cases hrec : splitAtFirst c xs with
      | none => rw [hrec] at h; simp at h
      | some p =>
        rw [hrec] at h
        simp at h
        obtain ⟨hb, ha⟩ : x :: p.1 = b ∧ p.2 = a := ⟨h.1, h.2⟩
        obtain ⟨hs, hc⟩ := ih (by rw [hrec])
        subst hb ha
        constructor
        · simp [hs]
        · simp [hc]
          exact fun h' => hx h'.symm

theorem splitAtFirst_of_eq {c : Char} {b a : List Char} (hb : c ∉ b) :
    splitAtFirst c (b ++ c :: a) = some (b, a) := by
  induction b with
  | nil => simp [splitAtFirst]
  | cons x xs ih =>
    simp at hb
    push_neg at hb
    simp [splitAtFirst, Ne.symm hb.1, ih hb.2]

theorem splitAtFirst_eq_none {c : Char} {s : List Char}
    (h : splitAtFirst c s = none) : c ∉ s := by
  induction s with
  | nil => simp
  | cons x xs ih =>
    by_cases hx : x = c
    · simp [splitAtFirst, hx] at h
    · simp [splitAtFirst, hx] at h
      simp [ih h]
      exact fun h' => hx h'.symm

theorem splitAtLast_eq_some {c : Char} {s b a : List Char}
    (h : splitAtLast c s = some (b, a)) : s = b ++ c :: a ∧ c ∉ a := by
  induction s generalizing b a with
  | nil => simp [splitAtLast] at h
  | cons x xs ih =>
    simp only [splitAtLast] at h
    cases hrec : splitAtLast c xs with
    | some p =>
      rw [hrec] at h
      simp at h
      obtain ⟨hb, ha⟩ : x :: p.1 = b ∧ p.2 = a := ⟨h.1, h.2⟩
      obtain ⟨hs, hc⟩ := ih (by rw [hrec])
      subst hb ha
      simp [hs, hc]
    | none =>
      rw [hrec] at h
      by_cases hx : x = c
      · simp [hx] at h
        have hnotin := splitAtLast_eq_none_mem hrec
        simp [hx, ← h.1, ← h.2]
        exact hnotin
      · simp [hx] at h
where
  splitAtLast_eq_none_mem {c : Char} {s : List Char}
      (h : splitAtLast c s = none) : c ∉ s := by
    induction s with
    | nil => simp
    | cons x xs ih =>
      simp only [splitAtLast] at h
      cases hrec : splitAtLast c xs with
      | some p => rw [hrec] at h; simp at h
      | none =>
        rw [hrec] at h
        by_cases hx : x = c
        · simp [hx] at h
        · simp [ih hrec]
          exact fun h' => hx h'.symm

/-! ## Claims C5 and C6: the address parser -/

/-- C5 (counterexample): the claim "the validity predicate accepts s iff s
contains exactly one `@` ..., in particular every string with two or more `@`
characters is rejected" is false on the code: `isValidEmail` checks only the
first `@`, and accepts `a@b@c.d`, which has two `@` characters and is rejected
by the claimed predicate. -/
theorem isValidEmail_two_ats_counterexample :
    isValidEmail "a@b@c.d".data = true ∧
      isValidEmailClaim "a@b@c.d".data = false ∧
      ("a@b@c.d".data.count '@' = 2) := by
  refine ⟨by decide, by decide, by decide⟩

/-- C5 (amended): `isValidEmail` accepts `s` iff `s` splits as
`before ++ '@' :: after` at its FIRST `@` (so `before` is `@`-free) with
`before` non-empty, `after` non-empty, and `after` containing a `.`;
characters of `after` may include further `@`s. -/
theorem isValidEmail_iff (s : List Char) :
    isValidEmail s = true ↔
      ∃ b a, s = b ++ '@' :: a ∧ '@' ∉ b ∧ b ≠ [] ∧ a ≠ [] ∧ '.' ∈ a := by
  unfold isValidEmail
  cases hsplit : splitAtFirst '@' s with
  | none =>
    simp
    intro b a hs hb
    have : '@' ∉ s := splitAtFirst_eq_none hsplit
    rw [hs] at this
    simp at this
  | some p =>
    obtain ⟨b, a⟩ := p
    obtain ⟨hs, hnb⟩ := splitAtFirst_eq_some hsplit
    constructor
    · intro h
      by_cases hb : b = [] <;> by_cases ha : a = [] <;>
        simp [hb, ha] at h
      exact ⟨b, a, hs, hnb, hb, ha, by simpa using h⟩
    · rintro ⟨b', a', hs', hnb', hb', ha', hdot'⟩
      have : splitAtFirst '@' s = some (b', a') := by
        rw [hs']; exact splitAtFirst_of_eq hnb'
      rw [hsplit] at this
      obtain ⟨hb, ha⟩ : b = b' ∧ a = a' := by
        simpa using this
      subst hb; subst ha
      simp [hb', ha']
      simpa using hdot'

/-- C6 (counterexample): on the single-token header `"N" <a@b.c> <d@e.f>`,
the parser returns the content of the FIRST angle-bracket group (`a@b.c`),
not the content of the last one (`d@e.f`) as the claim states. -/
theorem parseSingleEmail_last_group_counterexample :
    parseEmailHeader "\"N\" <a@b.c> <d@e.f>".data =
        [⟨"a@b.c".data, some "N".data, "b.c".data⟩] ∧
      (lastAngleGroup "\"N\" <a@b.c> <d@e.f>".data).map
          (fun g => trimL (toLowerL g)) = some "d@e.f".data ∧
      "a@b.c".data ≠ "d@e.f".data := by
  refine ⟨by decide, by decide, by decide⟩

/-- C6 (amended): for every token containing one or more angle-bracket groups,
`parseSingleEmail` returns as the address the lowercased (and trimmed) content
of the FIRST angle-bracket group, and as the name the prefix before the first
`<`, trimmed, with surrounding double quotes stripped (`null` if empty); a
token with no angle-bracket group yields the token itself, lowercased and
trimmed, as the address with a null name. In both cases the returned address
passes `isValidEmail` and the returned domain is `extractDomain` of it. -/
theorem parseSingleEmail_first_group (input : List Char) (p : ParsedEmail)
    (h : parseSingleEmail input = some p) :
    (match execAngle input with
      | some g => p.email = trimL (toLowerL g) ∧ p.name = angleName input
      | none => p.email = trimL (toLowerL input) ∧ p.name = none) ∧
      isValidEmail p.email = true ∧ extractDomain p.email = some p.domain := by
  unfold parseSingleEmail at h
  cases hexec : execAngle input with
  | some g =>
    rw [hexec] at h
    simp only at h
    by_cases hv : isValidEmail (trimL (toLowerL g)) = true
    · rw [if_neg (by simp [hv])] at h
      cases hdom : extractDomain (trimL (toLowerL g)) with
      | none => rw [hdom] at h; simp at h
      | some d =>
        rw [hdom] at h
        simp at h
        subst h
        exact ⟨⟨rfl, rfl⟩, hv, hdom⟩
    · rw [if_pos (by simpa using hv)] at h
      simp at h
  | none =>
    rw [hexec] at h
    simp only at h
    by_cases hv : isValidEmail (trimL (toLowerL input)) = true
    · rw [if_neg (by simp [hv])] at h
      cases hdom : extractDomain (trimL (toLowerL input)) with
      | none => rw [hdom] at h; simp at h
      | some d =>
        rw [hdom] at h
        simp at h
        subst h
        exact ⟨⟨rfl, rfl⟩, hv, hdom⟩
    · rw [if_pos (by simpa using hv)] at h
      simp at h

/-- Witness for `parseSingleEmail_first_group` at the concrete token
`"Jane Roe" <jane@beta.io>`. -/
theorem parseSingleEmail_first_group_witness :
    (match execAngle "\"Jane Roe\" <jane@beta.io>".data with
      | some g =>
        ("jane@beta.io".data : List Char) = trimL (toLowerL g) ∧
          (some "Jane Roe".data : Option (List Char)) =
            angleName "\"Jane Roe\" <jane@beta.io>".data
      | none =>
        ("jane@beta.io".data : List Char) =
            trimL (toLowerL "\"Jane Roe\" <jane@beta.io>".data) ∧
          (some "Jane Roe".data : Option (List Char)) = none) ∧
      isValidEmail "jane@beta.io".data = true ∧
      extractDomain "jane@beta.io".data = some "beta.io".data :=
  parseSingleEmail_first_group "\"Jane Roe\" <jane@beta.io>".data
    ⟨"jane@beta.io".data, some "Jane Roe".data, "beta.io".data⟩ (by decide)

/-! ## Claims C7 and C10: the blacklist engine -/

theorem isPrefixOf_self {l : List Char} : l.isPrefixOf l = true := by
  induction l with
  | nil => rfl
  | cons c rest ih => simp [List.isPrefixOf, ih]

theorem includesL_suffix {pre sub : List Char} : includesL sub (pre ++ sub) = true := by
  induction pre with
  | nil =>
    cases sub with
    | nil => rfl
    | cons c rest => simp [includesL, isPrefixOf_self]
  | cons c rest ih =>
    simp [includesL, ih]

theorem toLowerL_append {a b : List Char} :
    toLowerL (a ++ b) = toLowerL a ++ toLowerL b := by
  simp [toLowerL]

/-- C7 (confirmed): whenever the domain of an address (in the sense of
`extractDomain`) appears in the static whitelist, `isTransactional` returns
`false` unconditionally — the pattern table is never consulted. -/
theorem isTransactional_whitelisted (email d : List Char)
    (h1 : extractDomain email = some d) (h2 : d ∈ WHITELISTED_DOMAINS) :
    isTransactional email = false := by
  unfold extractDomain at h1
  cases hsplit : splitAtLast '@' email with
  | none => rw [hsplit] at h1; simp at h1
  | some p =>
    obtain ⟨b, after⟩ := p
    rw [hsplit] at h1
    by_cases ha : after = []
    · simp [ha] at h1
    · simp [ha] at h1
      obtain ⟨hs, -⟩ := splitAtLast_eq_some hsplit
      have hlow : toLowerL email = toLowerL b ++ '@' :: d := by
        rw [hs, toLowerL_append, ← h1]
        simp [toLowerL]
      have hincl : includesL ('@' :: d) (toLowerL email) = true := by
        rw [hlow]
        exact includesL_suffix
      have hany : WHITELISTED_DOMAINS.any
          (fun domain => includesL ('@' :: domain) (toLowerL email)) = true :=
        List.any_eq_true.mpr ⟨d, h2, hincl⟩
      unfold isTransactional
      simp only [hany]
      simp

/-- Witness for `isTransactional_whitelisted`: `noreply@playstation.sony.com`
has its domain in the whitelist, and indeed is not classified transactional
even though its local part matches the first pattern. -/
theorem isTransactional_whitelisted_witness :
    isTransactional "noreply@playstation.sony.com".data = false :=
  isTransactional_whitelisted "noreply@playstation.sony.com".data
    "playstation.sony.com".data (by decide) (by decide)

theorem alookup_upsertA_self {α β : Type} [DecidableEq α]
    (l : List (α × β)) (k : α) (v : β) : alookup (upsertA l k v) k = some v := by
  induction l with
  | nil => simp [upsertA, alookup]
  | cons e rest ih =>
    by_cases he : e.1 = k
    · simp [upsertA, he, alookup]
    · simp [upsertA, he, alookup, ih]

/-- C10 (confirmed): immediately after `BlacklistService.add(d, c, source)`,
`isDomainBlacklisted(d)` returns `true`, in any letter casing of `d` and
regardless of whether the in-memory cache was loaded before the add. -/
theorem bsAdd_isDomainBlacklisted (st : BlacklistState)
    (domain category : List Char) (source : Option (List Char)) :
    bsIsDomainBlacklisted (bsAdd st domain category source) domain = true := by
  unfold bsAdd bsIsDomainBlacklisted
  cases hc : st.cache with
  | some c =>
    simp only [hc]
    by_cases hm : toLowerL domain ∈ c
    · simp [hm]
    · simp [hm]
  | none =>
    simp only [hc]
    simp [alookup_upsertA_self]

/-! ## Claim C3: the recent-threads invariants -/

theorem spliceThread_sublist (tid : List Char) (l : List ThreadReference) :
    List.Sublist (spliceThread tid l) l := by
  induction l with
  | nil => simp [spliceThread]
  | cons t rest ih =>
    by_cases h : t.threadId = tid
    · simp [spliceThread, h]
    · simp only [spliceThread, if_neg h]
      exact List.Sublist.cons₂ t ih

theorem threadIds_sublist {l l' : List ThreadReference}
    (h : List.Sublist l l') : List.Sublist (threadIds l) (threadIds l') :=
  List.Sublist.map _ h

theorem spliceThread_not_mem {tid : List Char} {l : List ThreadReference}
    (h : (threadIds l).Nodup) : tid ∉ threadIds (spliceThread tid l) := by
  induction l with
  | nil => simp [spliceThread, threadIds]
  | cons t rest ih =>
    simp [threadIds] at h
    by_cases ht : t.threadId = tid
    · simp [spliceThread, ht]
      subst ht
      simpa [threadIds] using h.1
    · simp [spliceThread, ht, threadIds]
      refine ⟨fun he => ht he.symm, ?_⟩
      simpa [threadIds] using ih h.2

theorem spliceThread_of_not_mem {tid : List Char} {l : List ThreadReference}
    (h : tid ∉ threadIds l) : spliceThread tid l = l := by
  induction l with
  | nil => rfl
  | cons t rest ih =>
    simp [threadIds] at h
    have ht : ¬ t.threadId = tid := fun he => h.1 he.symm
    simp [spliceThread, ht, ih (by simpa [threadIds] using h.2)]

theorem spliceThread_length_of_mem {tid : List Char} {l : List ThreadReference}
    (h : tid ∈ threadIds l) :
    (spliceThread tid l).length + 1 = l.length := by
  induction l with
  | nil => simp [threadIds] at h
  | cons t rest ih =>
    by_cases ht : t.threadId = tid
    · simp [spliceThread, ht]
    · simp [threadIds] at h
      rcases h with h | h
      · exact absurd h.symm ht
      · simp only [spliceThread, if_neg ht, List.length_cons]
        rw [ih (by simpa [threadIds] using h)]

theorem applyRecentThread_nodup {l : List ThreadReference}
    (t : ThreadReference) (h : (threadIds l).Nodup) :
    (threadIds (applyRecentThread l t)).Nodup := by
  have hsub : List.Sublist (applyRecentThread l t)
      (t :: spliceThread t.threadId l) := List.take_sublist _ _
  refine List.Nodup.sublist (threadIds_sublist hsub) ?_
  simp only [threadIds, List.map_cons, List.nodup_cons]
  constructor
  · simpa [threadIds] using @spliceThread_not_mem t.threadId l h
  · have := List.Nodup.sublist
      (threadIds_sublist (spliceThread_sublist t.threadId l)) h
    simpa [threadIds] using this

theorem foldl_applyRecentThread_invariant (ts : List ThreadReference)
    {l : List ThreadReference} (h1 : (threadIds l).Nodup)
    (h2 : l.length ≤ MAX_THREADS_PER_CONTACT) :
    (threadIds (ts.foldl applyRecentThread l)).Nodup ∧
      (ts.foldl applyRecentThread l).length ≤ MAX_THREADS_PER_CONTACT := by
  induction ts generalizing l with
  | nil => exact ⟨h1, h2⟩
  | cons t rest ih =>
    refine ih (applyRecentThread_nodup t h1) ?_
    simp [applyRecentThread]

/-- C3 (confirmed): starting from the empty list (the `'[]'` default at row
creation), after any sequence of thread-reference insertions the
`recent_threads` list of a Contact or EmailAddress (both repositories run the
same mutation, `applyRecentThread`) has at most 100 entries and pairwise
distinct thread ids; inserting a reference whose thread id is already present
removes the old entry and places the new one at the front (no eviction); and
inserting a fresh reference into a full list evicts the last entry. -/
theorem recentThreads_invariants :
    (∀ ts : List ThreadReference,
        (ts.foldl applyRecentThread []).length ≤ 100 ∧
        (threadIds (ts.foldl applyRecentThread [])).Nodup) ∧
    (∀ (l : List ThreadReference) (t : ThreadReference),
        (threadIds l).Nodup → l.length ≤ 100 → t.threadId ∈ threadIds l →
        applyRecentThread l t = t :: spliceThread t.threadId l) ∧
    (∀ (l : List ThreadReference) (t : ThreadReference),
        l.length = 100 → t.threadId ∉ threadIds l →
        applyRecentThread l t = t :: l.dropLast) := by
  refine ⟨?_, ?_, ?_⟩
  · intro ts
    have h := @foldl_applyRecentThread_invariant ts []
      (by simp [threadIds]) (by simp [MAX_THREADS_PER_CONTACT])
    exact ⟨h.2, h.1⟩
  · intro l t hnodup hlen hmem
    unfold applyRecentThread
    have hsplice := spliceThread_length_of_mem hmem
    refine List.take_of_length_le ?_
    simp [MAX_THREADS_PER_CONTACT]
    omega
  · intro l t hlen hmem
    unfold applyRecentThread
    rw [spliceThread_of_not_mem hmem]
    rw [List.take_cons]
    · congr 1
      rw [List.dropLast_eq_take]
      congr 1
      simp [MAX_THREADS_PER_CONTACT, hlen]
    · simp [MAX_THREADS_PER_CONTACT]

/-- Witness for `recentThreads_invariants`: concrete instances of the three
clauses (a two-element list with `t1` re-added moves it to the front, and a
full 100-element list with a fresh id evicts the last entry). -/
theorem recentThreads_invariants_witness :
    (([⟨"t2".data, "work".data, "T2".data⟩,
       ⟨"t1".data, "work".data, "T1".data⟩] :
        List ThreadReference).foldl applyRecentThread []).length ≤ 100 ∧
    applyRecentThread
        [⟨"t2".data, "work".data, "T2".data⟩, ⟨"t1".data, "work".data, "T1".data⟩]
        ⟨"t1".data, "work".data, "T3".data⟩ =
      [⟨"t1".data, "work".data, "T3".data⟩, ⟨"t2".data, "work".data, "T2".data⟩] := by
  constructor
  · exact (recentThreads_invariants.1 _).1
  · rw [recentThreads_invariants.2.1 _ _ (by decide) (by decide) (by decide)]
    decide

/-! ## Claim C1: per-role deltas and per-key aggregation -/

theorem Delta.add_zero (d : Delta) : d.add Delta.zero = d := by
  cases d; simp [Delta.add, Delta.zero]

theorem Delta.zero_add (d : Delta) : Delta.zero.add d = d := by
  cases d; simp [Delta.add, Delta.zero]

theorem Delta.add_assoc (a b c : Delta) : (a.add b).add c = a.add (b.add c) := by
  cases a; cases b; cases c
  simp [Delta.add]
  omega

theorem foldl_add_init (l : List Delta) : ∀ a : Delta,
    l.foldl Delta.add a = a.add (deltaSum l) := by
  induction l with
  | nil => intro a; simp [deltaSum, Delta.add_zero]
  | cons x l ih =>
    intro a
    have hx : deltaSum (x :: l) = x.add (deltaSum l) := by
      simp only [deltaSum, List.foldl_cons, Delta.zero_add]
      exact ih x
    simp only [List.foldl_cons]
    rw [ih (a.add x), hx, Delta.add_assoc]

theorem deltaSum_cons (x : Delta) (l : List Delta) :
    deltaSum (x :: l) = x.add (deltaSum l) := by
  simp only [deltaSum, List.foldl_cons, Delta.zero_add]
  exact foldl_add_init l x

theorem getD_bumpD {κ : Type} [DecidableEq κ] (m : List (κ × Delta))
    (k k' : κ) (d : Delta) :
    getD (bumpD m k d) k' = if k' = k then (getD m k').add d else getD m k' := by
  induction m with
  | nil =>
    by_cases h : k' = k
    · subst h
      simp [bumpD, getD, alookup, Delta.zero_add]
    · have h2 : ¬ k = k' := fun he => h he.symm
      simp [bumpD, getD, alookup, h, h2]
  | cons e rest ih =>
    by_cases he : e.1 = k
    · subst he
      by_cases h : k' = e.1
      · subst h
        simp [bumpD, getD, alookup]
      · have h2 : ¬ e.1 = k' := fun hx => h hx.symm
        simp [bumpD, getD, alookup, h, h2]
    · by_cases h : e.1 = k'
      · subst h
        simp [bumpD, getD, alookup, he]
      · simp only [bumpD, if_neg he]
        simp only [getD, alookup, if_neg h]
        simpa [getD] using ih

theorem aggStep_companyStats (fromMe : Bool) (d2c : List (List Char × Nat))
    (e2c : List (List Char × ContactInfo)) (acc : Agg) (e : TaggedEmail) :
    (aggStep fromMe d2c e2c acc e).companyStats =
      bumpOn fromMe (aggKeyCompany d2c e2c) acc.companyStats e := by
  unfold aggStep aggKeyCompany bumpOn
  cases h1 : alookup d2c e.domain <;> cases h2 : alookup e2c e.email <;>
    simp [h1, h2]

theorem aggStep_domainStats (fromMe : Bool) (d2c : List (List Char × Nat))
    (e2c : List (List Char × ContactInfo)) (acc : Agg) (e : TaggedEmail) :
    (aggStep fromMe d2c e2c acc e).domainStats =
      bumpOn fromMe (aggKeyDomain d2c e2c) acc.domainStats e := by
  unfold aggStep aggKeyDomain bumpOn
  cases h1 : alookup d2c e.domain <;> cases h2 : alookup e2c e.email <;>
    simp [h1, h2]

theorem aggStep_contactStats (fromMe : Bool) (d2c : List (List Char × Nat))
    (e2c : List (List Char × ContactInfo)) (acc : Agg) (e : TaggedEmail) :
    (aggStep fromMe d2c e2c acc e).contactStats =
      bumpOn fromMe (aggKeyContact d2c e2c) acc.contactStats e := by
  unfold aggStep aggKeyContact bumpOn
  cases h1 : alookup d2c e.domain <;> cases h2 : alookup e2c e.email <;>
    simp [h1, h2]

theorem aggStep_emailStats (fromMe : Bool) (d2c : List (List Char × Nat))
    (e2c : List (List Char × ContactInfo)) (acc : Agg) (e : TaggedEmail) :
    (aggStep fromMe d2c e2c acc e).emailStats =
      bumpOn fromMe (aggKeyEmail d2c e2c) acc.emailStats e := by
  unfold aggStep aggKeyEmail bumpOn
  cases h1 : alookup d2c e.domain <;> cases h2 : alookup e2c e.email <;>
    simp [h1, h2]

theorem foldl_aggStep_proj {κ : Type} [DecidableEq κ] (fromMe : Bool)
    (d2c : List (List Char × Nat)) (e2c : List (List Char × ContactInfo))
    (proj : Agg → List (κ × Delta)) (key : TaggedEmail → Option κ)
    (hstep : ∀ acc e, proj (aggStep fromMe d2c e2c acc e) =
      bumpOn fromMe key (proj acc) e)
    (entries : List TaggedEmail) : ∀ acc : Agg,
    proj (entries.foldl (aggStep fromMe d2c e2c) acc) =
      aggFoldOn fromMe key entries (proj acc) := by
  induction entries with
  | nil => intro acc; simp [aggFoldOn]
  | cons e es ih =>
    intro acc
    simp only [List.foldl_cons, aggFoldOn] at ih ⊢
    rw [ih (aggStep fromMe d2c e2c acc e), hstep acc e]

theorem getD_aggFoldOn {κ : Type} [DecidableEq κ] (fromMe : Bool)
    (key : TaggedEmail → Option κ) (entries : List TaggedEmail) :
    ∀ (acc : List (κ × Delta)) (k : κ),
    getD (aggFoldOn fromMe key entries acc) k =
      (getD acc k).add (keyDeltaSum fromMe key entries k) := by
  induction entries with
  | nil =>
    intro acc k
    simp [aggFoldOn, keyDeltaSum, deltaSum, Delta.add_zero]
  | cons e es ih =>
    intro acc k
    simp only [keyDeltaSum] at ih ⊢
    simp only [aggFoldOn, List.foldl_cons] at ih ⊢
    cases hk : key e with
    | none =>
      rw [ih]
      simp only [bumpOn, hk]
      have hfil : List.filter (fun x => key x == some k) (e :: es) =
          List.filter (fun x => key x == some k) es := by
        simp [List.filter_cons, hk]
      rw [hfil]
    | some k0 =>
      rw [ih]
      simp only [bumpOn, hk]
      rw [getD_bumpD]
      by_cases hkk : k = k0
      · subst hkk
        rw [if_pos rfl]
        have hfil : List.filter (fun x => key x == some k) (e :: es) =
            e :: List.filter (fun x => key x == some k) es := by
          simp [List.filter_cons, hk]
        rw [hfil, List.map_cons, deltaSum_cons, Delta.add_assoc]
      · rw [if_neg hkk]
        have hfil : List.filter (fun x => key x == some k) (e :: es) =
            List.filter (fun x => key x == some k) es := by
          simp [List.filter_cons, hk, Ne.symm hkk]
        rw [hfil]

/-- C1 (confirmed): the per-role delta of a surviving parsed address is
`emails_to = 1` iff the message is sent by self and the role is `to`,
`emails_from = 1` iff not sent by self and the role is `from`,
`emails_included = 1` iff the role is `cc` (each delta is 0 otherwise); the
phase-4 aggregation sums exactly these deltas per Company, Domain, Contact
and EmailAddress key; and on the concrete two-recipients-one-domain message
(Scenario B) the Company and Domain each receive `emails_to = 2` while the
two distinct Contacts and EmailAddresses receive `emails_to = 1` each. -/
theorem processMessage_stat_deltas :
    (∀ (fromMe : Bool) (r : Role),
      ((roleDelta fromMe r).dTo = 1 ↔ fromMe = true ∧ r = Role.rTo) ∧
      ((roleDelta fromMe r).dFrom = 1 ↔ fromMe = false ∧ r = Role.rFrom) ∧
      ((roleDelta fromMe r).dIncl = 1 ↔ r = Role.rCc) ∧
      (roleDelta fromMe r).dTo ≤ 1 ∧ (roleDelta fromMe r).dFrom ≤ 1 ∧
      (roleDelta fromMe r).dIncl ≤ 1) ∧
    (∀ (fromMe : Bool) (d2c : List (List Char × Nat))
        (e2c : List (List Char × ContactInfo)) (entries : List TaggedEmail),
      (∀ k, getD (aggregateStats fromMe d2c e2c entries).companyStats k =
        keyDeltaSum fromMe (aggKeyCompany d2c e2c) entries k) ∧
      (∀ k, getD (aggregateStats fromMe d2c e2c entries).domainStats k =
        keyDeltaSum fromMe (aggKeyDomain d2c e2c) entries k) ∧
      (∀ k, getD (aggregateStats fromMe d2c e2c entries).contactStats k =
        keyDeltaSum fromMe (aggKeyContact d2c e2c) entries k) ∧
      (∀ k, getD (aggregateStats fromMe d2c e2c entries).emailStats k =
        keyDeltaSum fromMe (aggKeyEmail d2c e2c) entries k)) ∧
    ((alookup scenarioBStore.companies 0).map (fun r => (r.stats.emailsTo, r.stats.emailsFrom, r.stats.emailsIncluded)) = some (2, 0, 0) ∧
      (alookup scenarioBStore.domains "beta.io".data).map (fun r => r.stats.emailsTo) = some 2 ∧
      (alookup scenarioBStore.contacts 1).map (fun r => r.stats.emailsTo) = some 1 ∧
      (alookup scenarioBStore.contacts 2).map (fun r => r.stats.emailsTo) = some 1 ∧
      (alookup scenarioBStore.emails "a@beta.io".data).map (fun r => r.stats.emailsTo) = some 1 ∧
      (alookup scenarioBStore.emails "b@beta.io".data).map (fun r => r.stats.emailsTo) = some 1) := by
  refine ⟨?_, ?_, by decide⟩
  · intro fromMe r
    cases fromMe <;> cases r <;> decide
  intro fromMe d2c e2c entries
  refine ⟨fun k => ?_, fun k => ?_, fun k => ?_, fun k => ?_⟩
  · rw [show (aggregateStats fromMe d2c e2c entries).companyStats =
        aggFoldOn fromMe (aggKeyCompany d2c e2c) entries Agg.empty.companyStats from
      foldl_aggStep_proj fromMe d2c e2c Agg.companyStats (aggKeyCompany d2c e2c)
        (aggStep_companyStats fromMe d2c e2c) entries Agg.empty]
    rw [getD_aggFoldOn]
    simp [Agg.empty, getD, alookup, Delta.zero_add]
  · rw [show (aggregateStats fromMe d2c e2c entries).domainStats =
        aggFoldOn fromMe (aggKeyDomain d2c e2c) entries Agg.empty.domainStats from
      foldl_aggStep_proj fromMe d2c e2c Agg.domainStats (aggKeyDomain d2c e2c)
        (aggStep_domainStats fromMe d2c e2c) entries Agg.empty]
    rw [getD_aggFoldOn]
    simp [Agg.empty, getD, alookup, Delta.zero_add]
  · rw [show (aggregateStats fromMe d2c e2c entries).contactStats =
        aggFoldOn fromMe (aggKeyContact d2c e2c) entries Agg.empty.contactStats from
      foldl_aggStep_proj fromMe d2c e2c Agg.contactStats (aggKeyContact d2c e2c)
        (aggStep_contactStats fromMe d2c e2c) entries Agg.empty]
    rw [getD_aggFoldOn]
    simp [Agg.empty, getD, alookup, Delta.zero_add]
  · rw [show (aggregateStats fromMe d2c e2c entries).emailStats =
        aggFoldOn fromMe (aggKeyEmail d2c e2c) entries Agg.empty.emailStats from
      foldl_aggStep_proj fromMe d2c e2c Agg.emailStats (aggKeyEmail d2c e2c)
        (aggStep_emailStats fromMe d2c e2c) entries Agg.empty]
    rw [getD_aggFoldOn]
    simp [Agg.empty, getD, alookup, Delta.zero_add]

/-! ## Claim C2: idempotence of message processing -/

theorem processMessage_processed (self account : List Char) (st : Store)
    (m : Message) :
    ((processMessage self account st m).1).processed = st.processed := by
  unfold processMessage
  repeat' split
  all_goals rfl

theorem markProcessed_emails (st : Store) (id : List Char) :
    (markProcessed st id).emails = st.emails := by
  unfold markProcessed
  split <;> rfl

theorem batchSyncStep_of_processed (self account : List Char) (st : Store)
    (m : Message) (h : m.id ∈ st.processed) :
    batchSyncStep self account st m = (st, []) := by
  unfold batchSyncStep
  simp [h]

theorem batchSyncStep_mem_processed (self account : List Char) (st : Store)
    (m : Message) :
    m.id ∈ ((batchSyncStep self account st m).1).processed := by
  unfold batchSyncStep
  by_cases h : m.id ∈ st.processed
  · simp [h]
  · simp only [if_neg h]
    rw [processMessage_processed]
    unfold markProcessed
    simp [h]

theorem batchSyncStep_processed_mono (self account : List Char) (st : Store)
    (m : Message) (x : List Char) (hx : x ∈ st.processed) :
    x ∈ ((batchSyncStep self account st m).1).processed := by
  unfold batchSyncStep
  by_cases h : m.id ∈ st.processed
  · simp [h, hx]
  · simp only [if_neg h]
    rw [processMessage_processed]
    unfold markProcessed
    simp [h, hx]

theorem replayBatch_processed_mono (self account : List Char) (ms : List Message) :
    ∀ (st : Store) (x : List Char), x ∈ st.processed →
    x ∈ (replayBatch self account st ms).processed := by
  induction ms with
  | nil => intro st x hx; exact hx
  | cons m rest ih =>
    intro st x hx
    exact ih _ x (batchSyncStep_processed_mono self account st m x hx)

theorem replayBatch_mem_ids (self account : List Char) (ms : List Message) :
    ∀ (st : Store) (m : Message), m ∈ ms →
    m.id ∈ (replayBatch self account st ms).processed := by
  induction ms with
  | nil => intro st m hm; simp at hm
  | cons m0 rest ih =>
    intro st m hm
    rcases List.mem_cons.mp hm with hm | hm
    · subst hm
      exact replayBatch_processed_mono self account rest _ m.id
        (batchSyncStep_mem_processed self account st m)
    · exact ih _ m hm

theorem replayBatch_of_all_processed (self account : List Char) (ms : List Message) :
    ∀ st : Store, (∀ m ∈ ms, m.id ∈ st.processed) →
    replayBatch self account st ms = st := by
  induction ms with
  | nil => intro st _; rfl
  | cons m rest ih =>
    intro st h
    have hstep := batchSyncStep_of_processed self account st m (h m (by simp))
    show replayBatch self account ((batchSyncStep self account st m).1) rest = st
    rw [hstep]
    exact ih st (fun x hx => h x (by simp [hx]))

/-- C2 (confirmed): a message whose id is already recorded in
`processed_messages` is skipped — the batch step leaves the store untouched
and commits nothing — and replaying a message sequence twice through the cold
batch path yields exactly the store of replaying it once. -/
theorem batchSync_idempotent :
    (∀ (self account : List Char) (st : Store) (m : Message),
      m.id ∈ st.processed → batchSyncStep self account st m = (st, [])) ∧
    (∀ (self account : List Char) (st : Store) (ms : List Message),
      replayBatch self account st (ms ++ ms) = replayBatch self account st ms) := by
  constructor
  · exact batchSyncStep_of_processed
  · intro self account st ms
    unfold replayBatch
    rw [List.foldl_append]
    exact replayBatch_of_all_processed self account ms _
      (fun m hm => replayBatch_mem_ids self account ms st m hm)

/-- Witness for `batchSync_idempotent`: replaying Scenario A's message onto
the store it already produced changes nothing and commits nothing. -/
theorem batchSync_idempotent_witness :
    batchSyncStep "me@acme.com".data "work".data scenarioAStore scenarioAMessage =
      (scenarioAStore, []) :=
  batchSync_idempotent.1 "me@acme.com".data "work".data scenarioAStore
    scenarioAMessage (by decide)

/-! ## Claim C4: ProcessedMessage ordering relative to the mutation batches -/

/-- C4 (counterexample): on the hot incremental path the mutation batches are
committed BEFORE the `processed_messages` insert — on Scenario A's message the
trace is `[insertBatch, updateBatch, markProcessed]`, so a mutation is visible
while the message is absent from ProcessedMessage, contradicting the claim
that every sync path inserts the ProcessedMessage row first. -/
theorem incrementalSync_mark_after_counterexample :
    (incrementalSyncStep "me@acme.com".data "work".data Store.empty
        scenarioAMessage).2 =
      [DbOp.insertBatch, DbOp.updateBatch, DbOp.markProcessed] ∧
    mutationBeforeMark
      ((incrementalSyncStep "me@acme.com".data "work".data Store.empty
        scenarioAMessage).2) = true := by
  refine ⟨by decide, by decide⟩

/-- C4 (amended): the cold batch path inserts the ProcessedMessage row before
any mutation batch of the message; the hot incremental path instead commits
the message's mutation batches first and inserts the ProcessedMessage row
after them. -/
theorem processedMessage_ordering :
    (∀ (self account : List Char) (st : Store) (m : Message),
      mutationBeforeMark (batchSyncStep self account st m).2 = false) ∧
    (∀ (self account : List Char) (st : Store) (m : Message),
      m.id ∉ st.processed →
      (incrementalSyncStep self account st m).2 =
        (processMessage self account st m).2 ++ [DbOp.markProcessed]) := by
  constructor
  · intro self account st m
    unfold batchSyncStep
    by_cases h : m.id ∈ st.processed
    · simp [h, mutationBeforeMark]
    · simp [h, mutationBeforeMark]
  · intro self account st m h
    unfold incrementalSyncStep
    simp [h]

/-- Witness for `processedMessage_ordering`: the concrete traces on Scenario
A's message from the empty store. -/
theorem processedMessage_ordering_witness :
    mutationBeforeMark
        (batchSyncStep "me@acme.com".data "work".data Store.empty
          scenarioAMessage).2 = false ∧
    (incrementalSyncStep "me@acme.com".data "work".data Store.empty
        scenarioAMessage).2 =
      (processMessage "me@acme.com".data "work".data Store.empty
        scenarioAMessage).2 ++ [DbOp.markProcessed] :=
  ⟨processedMessage_ordering.1 "me@acme.com".data "work".data Store.empty
      scenarioAMessage,
    processedMessage_ordering.2 "me@acme.com".data "work".data Store.empty
      scenarioAMessage (by decide)⟩

/-! ## Claim C8: the staged update and the missing recent-threads mutation -/

/-- C8 (code bug): on Scenario A the batched `processMessage` stages the
summed counter deltas and the first/last-seen min/max — but NO recent-threads
list mutation: the created Contact and EmailAddress keep `recent_threads = []`
instead of the claimed `[{t1, account, message_date}]`. The repositories
implement the mutation (`updateStatsAndThread`) and the repository's own
engineering document lists "Add thread to recent_threads (cap at 100)" as a
step of message processing, but the batched path never stages it. -/
theorem processMessage_drops_thread_reference :
    (alookup scenarioAStore.contacts 1).map
        (fun r => (r.stats.emailsFrom, r.recentThreads)) = some (1, []) ∧
    (alookup scenarioAStore.emails "jane@beta.io".data).map
        (fun r => (r.stats.emailsFrom, r.stats.firstSeen, r.stats.lastSeen,
          r.recentThreads)) =
      some (1, some "2024-03-01T10:00:00Z".data,
        some "2024-03-01T10:00:00Z".data, []) ∧
    ([] : List ThreadReference) ≠
      [⟨"t1".data, "work".data, "2024-03-01T10:00:00Z".data⟩] := by
  refine ⟨by decide, by decide, by decide⟩

/-! ## Claim C9: observed_name lifecycle -/

theorem alookup_append_left {α β : Type} [DecidableEq α]
    {l l' : List (α × β)} {a : α} {r : β} (h : alookup l a = some r) :
    alookup (l ++ l') a = some r := by
  induction l with
  | nil => simp [alookup] at h
  | cons e rest ih =>
    by_cases he : e.1 = a
    · simp [alookup, he] at h ⊢
      exact h
    · simp [alookup, he] at h ⊢
      exact ih h

theorem alookup_append_of_none {α β : Type} [DecidableEq α]
    {l : List (α × β)} {a : α} (l' : List (α × β)) (h : alookup l a = none) :
    alookup (l ++ l') a = alookup l' a := by
  induction l with
  | nil => simp
  | cons e rest ih =>
    by_cases he : e.1 = a
    · simp [alookup, he] at h
    · simp [alookup, he] at h ⊢
      exact ih h

theorem alookup_updateA {α β : Type} [DecidableEq α] (l : List (α × β))
    (k : α) (f : β → β) (a : α) :
    alookup (updateA l k f) a =
      (alookup l a).map (fun v => if a = k then f v else v) := by
  induction l with
  | nil => simp [updateA, alookup]
  | cons e rest ih =>
    by_cases hea : e.1 = a
    · subst hea
      by_cases hek : e.1 = k
      · subst hek
        simp [updateA, alookup]
      · simp [updateA, alookup, hek]
    · by_cases hek : e.1 = k
      · subst hek
        simp [updateA, alookup, hea] at ih ⊢
        exact ih
      · simp [updateA, alookup, hea, hek] at ih ⊢
        exact ih

theorem foldl_updateA_preserve {α β γ δ : Type} [DecidableEq α]
    (updates : List (α × δ)) (F : α × δ → β → β) (fieldOf : β → γ)
    (hF : ∀ u v, fieldOf (F u v) = fieldOf v) :
    ∀ (l : List (α × β)) (a : α) (r : β), alookup l a = some r →
    ∃ r', alookup (updates.foldl (fun t u => updateA t u.1 (F u)) l) a =
        some r' ∧ fieldOf r' = fieldOf r := by
  induction updates with
  | nil =>
    intro l a r h
    exact ⟨r, h, rfl⟩
  | cons u us ih =>
    intro l a r h
    have h1 : alookup (updateA l u.1 (F u)) a =
        some (if a = u.1 then F u r else r) := by
      rw [alookup_updateA, h]
      rfl
    obtain ⟨r', hr', hf⟩ := ih _ a _ h1
    refine ⟨r', hr', ?_⟩
    rw [hf]
    by_cases ha : a = u.1
    · simp [ha, hF]
    · simp [ha]

theorem processMessage_preserves_nameObserved (self account : List Char)
    (st : Store) (m : Message) (a : List Char) (r : EmailRow)
    (h : alookup st.emails a = some r) :
    ∃ r', alookup ((processMessage self account st m).1).emails a = some r' ∧
      r'.nameObserved = r.nameObserved := by
  unfold processMessage
  split
  · exact ⟨r, h, rfl⟩
  · exact foldl_updateA_preserve _
      (fun e row => { row with stats := row.stats.applyUpdate e.2 m.messageDate })
      EmailRow.nameObserved (fun _ _ => rfl) _ a r (alookup_append_left h)

theorem batchSyncStep_preserves_nameObserved (self account : List Char)
    (st : Store) (m : Message) (a : List Char) (r : EmailRow)
    (h : alookup st.emails a = some r) :
    ∃ r', alookup ((batchSyncStep self account st m).1).emails a = some r' ∧
      r'.nameObserved = r.nameObserved := by
  unfold batchSyncStep
  by_cases hp : m.id ∈ st.processed
  · simp only [if_pos hp]
    exact ⟨r, h, rfl⟩
  · simp only [if_neg hp]
    exact processMessage_preserves_nameObserved self account _ m a r
      (by rw [markProcessed_emails]; exact h)

/-- C9 (counterexample): after `jane@beta.io` is first seen without a display
name and then appears with the display name `Jane Roe`, the batched path
leaves the EmailAddress's `observed_name` at null — it is NOT upgraded,
although the same second message does upgrade the Contact's name. -/
theorem observedName_not_upgraded_counterexample :
    (parseEmailHeader "\"Jane Roe\" <jane@beta.io>".data).map (fun p => p.name) =
      [some "Jane Roe".data] ∧
    (alookup nameScenarioStore.emails "jane@beta.io".data).map
      (fun r => r.nameObserved) = some none ∧
    (alookup nameScenarioStore.contacts 1).map (fun r => r.name) =
      some (some "Jane Roe".data) := by
  refine ⟨by decide, by decide, by decide⟩

/-- C9 (amended): `observed_name` is set at creation to the first observation
(`EmailRepository.findOrCreate` creates the row carrying it); the repository
path upgrades it from null when a non-null observation arrives and never
touches it once non-null; the batched `processMessage` path, however, never
modifies `observed_name` of an existing EmailAddress at all (in particular it
performs no null-to-name upgrade). -/
theorem observedName_write_once :
    (∀ (st : Store) (email : List Char) (cid : Nat) (dom : List Char)
        (name : Option (List Char)),
      alookup st.emails (toLowerL email) = none →
      alookup ((emailFindOrCreate st email cid dom name).1).emails
          (toLowerL email) =
        some ⟨cid, some (toLowerL dom), name, [], Stats.init⟩) ∧
    (∀ (st : Store) (email : List Char) (cid : Nat) (dom n : List Char)
        (r : EmailRow),
      alookup st.emails (toLowerL email) = some r → r.nameObserved = none →
      alookup ((emailFindOrCreate st email cid dom (some n)).1).emails
          (toLowerL email) = some { r with nameObserved := some n }) ∧
    (∀ (st : Store) (email : List Char) (cid : Nat) (dom : List Char)
        (name : Option (List Char)) (r : EmailRow) (x : List Char),
      alookup st.emails (toLowerL email) = some r → r.nameObserved = some x →
      (emailFindOrCreate st email cid dom name).1 = st) ∧
    (∀ (self account : List Char) (st : Store) (m : Message) (a : List Char)
        (r : EmailRow),
      alookup st.emails a = some r →
      ∃ r', alookup ((batchSyncStep self account st m).1).emails a = some r' ∧
        r'.nameObserved = r.nameObserved) := by
  refine ⟨?_, ?_, ?_, batchSyncStep_preserves_nameObserved⟩
  · intro st email cid dom name h
    unfold emailFindOrCreate
    rw [h]
    dsimp only
    rw [alookup_append_of_none _ h]
    simp [alookup]
  · intro st email cid dom n r h hnull
    unfold emailFindOrCreate
    rw [h]
    dsimp only
    rw [hnull]
    dsimp only
    rw [alookup_updateA, h]
    simp
  · intro st email cid dom name r x h hsome
    unfold emailFindOrCreate
    rw [h]
    dsimp only
    cases name with
    | none => rfl
    | some y =>
      rw [hsome]

/-- Witness for `observedName_write_once`: concrete instances of the four
clauses on one-row stores and Scenario A's message. -/
theorem observedName_write_once_witness :
    alookup ((emailFindOrCreate Store.empty "Jane@beta.io".data 7 "beta.io".data
        none).1).emails (toLowerL "Jane@beta.io".data) =
      some ⟨7, some (toLowerL "beta.io".data), none, [], Stats.init⟩ ∧
    (∃ r', alookup ((batchSyncStep "me@acme.com".data "work".data
          (emailFindOrCreate Store.empty "Jane@beta.io".data 7 "beta.io".data
            none).1 scenarioAMessage).1).emails "jane@beta.io".data = some r' ∧
      r'.nameObserved = none) := by
  constructor
  · exact observedName_write_once.1 Store.empty "Jane@beta.io".data 7
      "beta.io".data none (by decide)
  · have h := observedName_write_once.2.2.2 "me@acme.com".data "work".data
      (emailFindOrCreate Store.empty "Jane@beta.io".data 7 "beta.io".data
        none).1 scenarioAMessage "jane@beta.io".data
      ⟨7, some "beta.io".data, none, [], Stats.init⟩ (by decide)
    simpa using h

end Sigparser
